import Mathlib

/-!
Shallow embedding of the windowed-view annotation model of the
EEG_Annotation_Desktop__Application repository.

Conventions of the embedding:
* Python floats are modelled as `ℚ` (exact rational arithmetic).
* Python `None` becomes `Option.none`; code that would raise a `TypeError`
  (for example comparing `None` with a float) is modelled as returning `none`.
* Python dicts (insertion ordered) are modelled as association lists
  `List (String × α)`; assignment `d[k] = v` replaces in place when the key
  exists and appends otherwise.
* `datetime.now()` is nondeterministic, so constructors that stamp the
  current time take the timestamp as an explicit argument.
* numpy arrays are pure matrices `List (List ℚ)`; for the aliasing claims a
  heap of buffers with view descriptors is used (fancy row indexing copies,
  column slicing views the same buffer, `ndarray.copy()` allocates).
-/

/-- Entry of `models.py` class `Annotation` (fields of the dataclass:
`text`, `start_time`, `end_time`, `timestamp`, `duration`, `color`).
Note the class has no `channels` field. -/
structure Ann where
  text : String
  start_time : ℚ
  end_time : ℚ
  timestamp : String
  duration : ℚ
  color : String
deriving DecidableEq

/-- Round-half-to-even on rationals, the tie-breaking rule of Python
`round` (ties at exact halves are irrelevant to every property proved
below). -/
def roundHalfEven (q : ℚ) : ℤ :=
  if q - ⌊q⌋ < 1/2 then ⌊q⌋
  else if q - ⌊q⌋ > 1/2 then ⌊q⌋ + 1
  else if ⌊q⌋ % 2 = 0 then ⌊q⌋ else ⌊q⌋ + 1

/-- Python `round(x, 3)`: round to 3 decimal places. -/
def roundQ3 (q : ℚ) : ℚ := (roundHalfEven (q * 1000) : ℚ) / 1000

/-- `models.py` `Annotation.create` (lines 42-53): rounds the two times and
the absolute duration to 3 decimals and stamps the creation time.  It
performs no validation whatsoever. -/
def createAnn (text : String) (start_t end_t : ℚ) (now : String) (color : String) : Ann :=
  { text := text
    start_time := roundQ3 start_t
    end_time := roundQ3 end_t
    timestamp := now
    duration := roundQ3 |end_t - start_t|
    color := color }

/-- `models.py` class `AnnotationCollection`: a dict from synthetic keys to
lists of entries plus provenance metadata. -/
structure AnnCollection where
  annotations : List (String × List Ann)
  edf_file : String
  window_size : ℚ
  sampling_freq : ℚ
  export_timestamp : String
deriving DecidableEq

/-- `models.py` `AnnotationCollection.create_empty` (timestamp passed
explicitly, see the conventions above). -/
def createEmpty (edf : String) (ws sf : ℚ) (now : String) : AnnCollection :=
  ⟨[], edf, ws, sf, now⟩

/-- Decimal digit characters of a natural number, most significant first:
the embedding of Python `str(int)` used by the f-string
`f"annotation_{len(self.annotations)}"`. -/
def natDecChars (n : Nat) : List Char :=
  if _h : n < 10 then [Nat.digitChar n]
  else natDecChars (n / 10) ++ [Nat.digitChar (n % 10)]
decreasing_by exact Nat.div_lt_self (by omega) (by omega)

/-- The key string `annotation_{n}` generated for dict size `n`. -/
def mkKey (n : Nat) : String := "annotation_" ++ ⟨natDecChars n⟩

/-- Python dict assignment `d[k] = v` on an insertion-ordered dict:
replace in place when the key is present, append otherwise. -/
def dictSet (d : List (String × α)) (k : String) (v : α) : List (String × α) :=
  if d.any (fun kv => kv.1 = k) then
    d.map (fun kv => if kv.1 = k then (k, v) else kv)
  else d ++ [(k, v)]

/-- `models.py` `AnnotationCollection.add_annotation` (lines 87-91): the key
is derived from the CURRENT SIZE of the dict, `annotation_{len(dict)}`, not
from a monotonic insertion counter.  Returns the generated key together
with the updated collection. -/
def addAnn (c : AnnCollection) (a : Ann) : String × AnnCollection :=
  let key := mkKey c.annotations.length
  (key, { c with annotations := dictSet c.annotations key [a] })

/-- All annotations stored in the collection (every entry of every value
list of the dict), in iteration order. -/
def allStored (c : AnnCollection) : List Ann :=
  c.annotations.flatMap (fun kv => kv.2)

/-- `models.py` `AnnotationCollection.get_annotations_in_range`
(lines 93-101): strict-inequality overlap test
`annotation.start_time < end_time and annotation.end_time > start_time`. -/
def getAnnsInRange (c : AnnCollection) (start_t end_t : ℚ) : List Ann :=
  c.annotations.flatMap
    (fun kv => kv.2.filter
      (fun a => decide (a.start_time < end_t) && decide (a.end_time > start_t)))

/-- Modelled from the spec: `AnnotationStore.remove` — the
`remove_annotation` method called at `src/main_dashboard.py` line 343 but
missing from `models.py`.  Per spec section 4.4 it removes the matching
annotation from whichever key holds it and drops a key whose list becomes
empty. -/
def removeAnn (c : AnnCollection) (a : Ann) : AnnCollection :=
  let dropped := c.annotations.map (fun kv => (kv.1, kv.2.filter (fun x => x ≠ a)))
  { c with annotations := dropped.filter (fun kv => ¬ kv.2.isEmpty) }

/-- Sequence of insertions through `add_annotation`, collecting the
generated keys in order. -/
def addAll (c : AnnCollection) : List Ann → AnnCollection × List String
  | [] => (c, [])
  | a :: rest =>
    let kc := addAnn c a
    let r := addAll kc.2 rest
    (r.1, kc.1 :: r.2)

/-- `models.py` class `SelectionState`. -/
structure SelectionState where
  start_time : Option ℚ := none
  end_time : Option ℚ := none
  is_selecting : Bool := false
  mouse_pressed : Bool := false
deriving DecidableEq

/-- `models.py` `SelectionState.clear` (lines 139-144). -/
def clearSel (_s : SelectionState) : SelectionState :=
  ⟨none, none, false, false⟩

/-- `models.py` `SelectionState.has_selection` (lines 146-151): both times
set and `abs(end - start) >= 0.1`. -/
def hasSelection (s : SelectionState) : Bool :=
  match s.start_time, s.end_time with
  | some a, some b => decide (|b - a| ≥ (1:ℚ)/10)
  | _, _ => false

/-- Matplotlib mouse event as consumed by the annotation system: whether
the event is inside the axes, its x data coordinate, and the button. -/
structure MouseEvent where
  inaxes : Bool
  xdata : Option ℚ
  button : Nat

/-- `annotation_system.py` `AnnotationManager.handle_mouse_press`
(lines 44-55): on a primary-button press inside the axes with annotation
mode enabled, start a drag with `start = end = x`. -/
def handleMousePress (s : SelectionState) (e : MouseEvent) (mode : Bool) : SelectionState :=
  if ¬ mode ∨ ¬ e.inaxes ∨ e.button ≠ 1 then s
  else ⟨e.xdata, e.xdata, true, true⟩

/-- Outcome of a mouse release: no-op (guards failed), prompt for a label
(valid committed selection), or cleared (invalid/cancelled). -/
inductive ReleaseOutcome where
  | noop
  | prompt
  | cleared
deriving DecidableEq

/-- `annotation_system.py` `AnnotationManager.handle_mouse_release`
(lines 71-95): finalize the drag, swapping the endpoints when
`start_time > end_time`, then either prompt (valid selection) or clear.
Returns `none` for the path where Python would raise a `TypeError`
(comparing a `None` start with a float). -/
def handleMouseRelease (s : SelectionState) (e : MouseEvent) (mode : Bool) :
    Option (SelectionState × ReleaseOutcome) :=
  if ¬ mode ∨ ¬ s.mouse_pressed then some (s, .noop)
  else
    let s1 : SelectionState := { s with mouse_pressed := false }
    match s1.is_selecting, e.inaxes, e.xdata with
    | true, true, some x =>
      match s1.start_time with
      | none => none
      | some a =>
        let s2 : SelectionState :=
          if a > x then { s1 with start_time := some x, end_time := some a }
          else { s1 with end_time := some x }
        if hasSelection s2 then some (s2, .prompt)
        else some (clearSel s2, .cleared)
    | _, _, _ => some (clearSel s1, .cleared)

/-- Python `str.strip()`: drop whitespace from both ends. -/
def stripStr (s : String) : String :=
  let l := s.data.dropWhile Char.isWhitespace
  ⟨(l.reverse.dropWhile Char.isWhitespace).reverse⟩

/-- `ui_components.py` `EditAnnotationDialog.accept` (lines 97-115): reject
an empty (stripped) label, reject `start_time > end_time`, otherwise accept
the edit with the stripped label and the two times. -/
def editAccept (label : String) (start_t end_t : ℚ) : Option (String × ℚ × ℚ) :=
  let l := stripStr label
  if l = "" then none
  else if start_t > end_t then none
  else some (l, start_t, end_t)

/-- One serialized annotation entry of the JSON document: the keys the
document may carry.  `none` models an absent key.  The refactored modules
expect a `channels` key (see `AnnotationValidator.validate_annotation_data`
and `plotting.py`), so the document type carries it. -/
structure AnnEntryDoc where
  text : Option String
  startTime : Option ℚ
  endTime : Option ℚ
  timestamp : Option String
  duration : Option ℚ
  color : Option String
  channels : Option (List String)
deriving DecidableEq

/-- `models.py` `Annotation.to_dict` (lines 55-64): writes exactly the six
dataclass fields; it never emits a `channels` key. -/
def annToDict (a : Ann) : AnnEntryDoc :=
  ⟨some a.text, some a.start_time, some a.end_time,
   some a.timestamp, some a.duration, some a.color, none⟩

/-- Top-level shape of the annotation JSON document. -/
structure AnnDoc where
  edfFile : Option String
  windowSize : Option ℚ
  samplingFreq : Option ℚ
  annotations : Option (List (String × List AnnEntryDoc))
  exportTimestamp : Option String

/-- `models.py` `AnnotationCollection.to_dict` (lines 103-114). -/
def collectionToDict (c : AnnCollection) : AnnDoc :=
  ⟨some c.edf_file, some c.window_size, some c.sampling_freq,
   some (c.annotations.map (fun kv => (kv.1, kv.2.map annToDict))),
   some c.export_timestamp⟩

/-- Entry parsing inside `file_handlers.py` `load_annotations`
(lines 151-158): subscription `ann['text']` etc. raises `KeyError` on an
absent key (modelled as `none`); a `channels` key is never read. -/
def parseEntry (e : AnnEntryDoc) : Option Ann :=
  match e.text, e.startTime, e.endTime, e.timestamp, e.duration, e.color with
  | some t, some st, some en, some ts, some d, some col =>
    some ⟨t, st, en, ts, d, col⟩
  | _, _, _, _, _, _ => none

/-- Parse every entry of one key, failing if any entry is malformed. -/
def parseEntryList : List AnnEntryDoc → Option (List Ann)
  | [] => some []
  | e :: rest =>
    match parseEntry e, parseEntryList rest with
    | some a, some l => some (a :: l)
    | _, _ => none

/-- Parse the whole `annotations` map of the document. -/
def parseAnnMap : List (String × List AnnEntryDoc) → Option (List (String × List Ann))
  | [] => some []
  | kv :: rest =>
    match parseEntryList kv.2, parseAnnMap rest with
    | some l, some r => some ((kv.1, l) :: r)
    | _, _ => none

/-- `file_handlers.py` `AnnotationFileHandler.load_annotations`
(lines 143-168): `data.get` substitutes `"unknown"`, `20.0`, `250.0`, `""`
for missing top-level fields and `{}` for a missing annotations map; any
exception while reading entries makes the whole load return `None`. -/
def loadAnns (d : AnnDoc) : Option AnnCollection :=
  match parseAnnMap (d.annotations.getD []) with
  | none => none
  | some anns =>
    some ⟨anns, d.edfFile.getD "unknown", d.windowSize.getD 20,
          d.samplingFreq.getD 250, d.exportTimestamp.getD ""⟩

/-- `annotation_system.py` `AnnotationValidator.validate_annotation_data`
(lines 231-235): requires the presence of all seven keys, `channels`
included. -/
def validateAnnData (e : AnnEntryDoc) : Bool :=
  e.text.isSome && e.startTime.isSome && e.endTime.isSome &&
  e.timestamp.isSome && e.duration.isSome && e.color.isSome && e.channels.isSome

/-- `np.median` on a list of rationals: sort ascending, take the middle
element for odd length, the mean of the two middle elements for even
length. -/
def medianQ (l : List ℚ) : ℚ :=
  let s := l.insertionSort (· ≤ ·)
  let n := l.length
  if n % 2 = 1 then s.getD (n / 2) 0
  else (s.getD (n / 2 - 1) 0 + s.getD (n / 2) 0) / 2

/-- `dashboard.py` `updatePlot` lines 458-468: base spacing is the median
per-channel standard deviation times 6, divided by `amplitudeScale`, and
replaced by `1e-5` when the result is below `1e-6`.  The median standard
deviation (computed by numpy over the window slice) is the first input. -/
def scaledChannelSpacing (medianStd amplitudeScale : ℚ) : ℚ :=
  let baseChannelSpacing := medianStd * 6
  let scaled := baseChannelSpacing / amplitudeScale
  if scaled < 1/1000000 then 1/100000 else scaled

/-- `dashboard.py` `nextWindow` (lines 673-682): advance by one time scale
only while `currentWindowStart + timeScale < totalDuration`. -/
def nextWindowStart (total ts s : ℚ) : ℚ :=
  if s + ts < total then s + ts else s

/-- `dashboard.py` `previousWindow` (lines 684-692). -/
def prevWindowStart (ts s : ℚ) : ℚ :=
  if s > 0 then max 0 (s - ts) else s

/-- `dashboard.py` `jumpForward` (lines 694-706): jump by five windows or
clamp to `max 0 (totalDuration - timeScale)`. -/
def jumpForwardStart (total ts s : ℚ) : ℚ :=
  if s + ts * 5 < total then s + ts * 5 else max 0 (total - ts)

/-- `dashboard.py` `jumpBackward` (lines 708-716). -/
def jumpBackwardStart (ts s : ℚ) : ℚ :=
  max 0 (s - ts * 5)

/-- Navigation actions of the PyQt6 dashboard. -/
inductive NavAct where
  | next
  | previous
  | first
  | last
  | play
  | pause

/-- `main_dashboard.py` `_on_navigation` (lines 299-309): apply the action
and clamp the result to `[0, total_duration - time_scale]` from below by
`0`. -/
def navStep (total ts s : ℚ) (a : NavAct) : ℚ :=
  let s1 : ℚ :=
    match a with
    | .next => s + ts
    | .previous => s - ts
    | .first => 0
    | .last => total - ts
    | .play => s
    | .pause => s
  max 0 (min s1 (total - ts))

/-- A numpy matrix: list of channel rows. -/
abbrev Mat := List (List ℚ)

/-- Heap of numpy buffers, addressed by allocation index. -/
abbrev Heap := List Mat

/-- View into a buffer: basic column slicing shares the buffer
(`cols = some (start, stop)`), `none` views the whole buffer. -/
structure NView where
  buf : Nat
  cols : Option (Nat × Nat)

/-- Materialize the values a view denotes. -/
def readView (h : Heap) (v : NView) : Mat :=
  (h.getD v.buf []).map (fun row =>
    match v.cols with
    | none => row
    | some se => (row.drop se.1).take (se.2 - se.1))

/-- `file_handlers.py` `FilterHandler.apply_filters_array` (lines 244-266):
with no filter requested the input is returned unchanged; otherwise
`data.copy()` allocates a fresh buffer, the external mne filter `f`
mutates that fresh buffer in place, and `get_data()` returns it. -/
def applyFiltersArray (h : Heap) (v : NView) (lp hp : Option ℚ) (f : Mat → Mat) :
    Heap × NView :=
  if lp.isNone && hp.isNone then (h, v)
  else
    let m := readView h v
    let b := h.length
    let h1 := h ++ [m]
    let h2 := h1.set b (f (h1.getD b []))
    (h2, ⟨b, none⟩)

/-- `plotting.py` `EEGPlotter._get_selected_channel_data` (lines 164-171):
an empty selection returns the recording matrix itself (same buffer, no
copy); otherwise numpy fancy row indexing allocates a fresh buffer. -/
def getSelectedChannelData (h : Heap) (recBuf : Nat) (sel : List Nat) : Heap × Nat :=
  if sel.isEmpty then (h, recBuf)
  else
    let m := h.getD recBuf []
    (h ++ [sel.map (fun i => m.getD i [])], h.length)

/-- `plotting.py` `EEGPlotter.plot_eeg_data` lines 110-127: select the
channels, slice the window columns `[start_sample, end_sample)` (a view),
and when a lowpass or highpass is set pass only that slice through
`apply_filters_array`.  Returns the final heap and the matrix handed to
the renderer. -/
def plotWindowData (h : Heap) (recBuf : Nat) (sel : List Nat)
    (startSample spw : Nat) (lp hp : Option ℚ) (f : Mat → Mat) : Heap × Mat :=
  let hs := getSelectedChannelData h recBuf sel
  let ncols := ((hs.1.getD hs.2 []).headD []).length
  let endSample := min (startSample + spw) ncols
  let wv : NView := ⟨hs.2, some (startSample, endSample)⟩
  if lp.isSome || hp.isSome then
    let hf := applyFiltersArray hs.1 wv lp hp f
    (hf.1, readView hf.1 hf.2)
  else (hs.1, readView hs.1 wv)

/-- The window slice as a pure function of the original heap contents:
selected rows restricted to the window columns. -/
def windowSliceSpec (h : Heap) (recBuf : Nat) (sel : List Nat)
    (startSample spw : Nat) : Mat :=
  let rec0 := h.getD recBuf []
  let selData := if sel.isEmpty then rec0 else sel.map (fun i => rec0.getD i [])
  let ncols := (selData.headD []).length
  let endSample := min (startSample + spw) ncols
  selData.map (fun row => (row.drop startSample).take (endSample - startSample))

/-- Example annotations with pairwise distinct contents, used in concrete
runs. -/
def exA : Ann := ⟨"Seizure", 1, 2, "t1", 1, "red"⟩

/-- Second example annotation. -/
def exB : Ann := ⟨"Spike", 3, 4, "t2", 1, "blue"⟩

/-- Third example annotation. -/
def exC : Ann := ⟨"Sleep", 5, 6, "t3", 1, "yellow"⟩

/-- Example document entry carrying an explicit channels list. -/
def exEntryChan : AnnEntryDoc :=
  ⟨some "Spike", some 2, some 5, some "t", some 3, some "blue", some ["C3"]⟩

/-- Annotation spanning the interval [10, 12], for the boundary
illustration of the overlap query. -/
def exBoundary : Ann := ⟨"Seizure", 10, 12, "tb", 2, "red"⟩

/-- Collection holding only `exBoundary`. -/
def exColl : AnnCollection := ⟨[("annotation_0", [exBoundary])], "f.edf", 20, 250, "t"⟩

theorem natDecChars_lt {n : Nat} (h : n < 10) : natDecChars n = [Nat.digitChar n] := by
  rw [natDecChars]
  simp [h]

theorem natDecChars_ge {n : Nat} (h : ¬ n < 10) :
    natDecChars n = natDecChars (n / 10) ++ [Nat.digitChar (n % 10)] := by
  rw [natDecChars]
  simp [h]

theorem natDecChars_ne_nil (n : Nat) : natDecChars n ≠ [] := by
  by_cases h : n < 10
  · simp [natDecChars_lt h]
  · simp [natDecChars_ge h]

theorem digitChar_inj_fin : ∀ a b : Fin 10, Nat.digitChar a.val = Nat.digitChar b.val → a = b := by
  decide

theorem digitChar_inj (m n : Nat) (hm : m < 10) (hn : n < 10)
    (h : Nat.digitChar m = Nat.digitChar n) : m = n := by
  have := digitChar_inj_fin ⟨m, hm⟩ ⟨n, hn⟩ h
  exact congrArg Fin.val this

theorem natDecChars_inj : ∀ m n : Nat, natDecChars m = natDecChars n → m = n := by
  intro m
  induction m using Nat.strong_induction_on with
  | _ m ih =>
    intro n h
    by_cases hm : m < 10 <;> by_cases hn : n < 10
    · rw [natDecChars_lt hm, natDecChars_lt hn] at h
      simp at h
      exact digitChar_inj m n hm hn h
    · rw [natDecChars_lt hm, natDecChars_ge hn] at h
      have hlen := congrArg List.length h
      simp at hlen
      exact absurd hlen (natDecChars_ne_nil _)
    · rw [natDecChars_ge hm, natDecChars_lt hn] at h
      have hlen := congrArg List.length h
      simp at hlen
      exact absurd hlen (natDecChars_ne_nil _)
    · rw [natDecChars_ge hm, natDecChars_ge hn] at h
      obtain ⟨hq, hr⟩ := List.append_inj' h (by simp)
      have hmod : m % 10 = n % 10 :=
        digitChar_inj _ _ (Nat.mod_lt _ (by omega)) (Nat.mod_lt _ (by omega)) (by simpa using hr)
      have hdiv : m / 10 = n / 10 := ih (m / 10) (Nat.div_lt_self (by omega) (by omega)) (n / 10) hq
      omega

theorem mkKey_inj : Function.Injective mkKey := by
  intro m n h
  apply natDecChars_inj
  have hd := congrArg String.data h
  simpa [mkKey, String.data_append] using hd

theorem addAnn_fresh (c : AnnCollection) (a : Ann) (n : Nat)
    (h : c.annotations.map Prod.fst = (List.range n).map mkKey) :
    addAnn c a = (mkKey n, { c with annotations := c.annotations ++ [(mkKey n, [a])] }) := by
  have hlen : c.annotations.length = n := by
    have := congrArg List.length h
    simpa using this
  have hfresh : c.annotations.any (fun kv => kv.1 = mkKey n) = false := by
    rw [List.any_eq_false]
    intro kv hkv
    have hk1 : kv.1 ∈ c.annotations.map Prod.fst := List.mem_map_of_mem _ hkv
    rw [h] at hk1
    simp only [List.mem_map, List.mem_range] at hk1
    obtain ⟨i, hi, hik⟩ := hk1
    simp only [decide_eq_true_eq]
    intro heq
    exact absurd (mkKey_inj (hik.trans heq)) (by omega)
  simp [addAnn, dictSet, hlen, hfresh]

theorem addAll_keys (as : List Ann) : ∀ (n : Nat) (c : AnnCollection),
    c.annotations.map Prod.fst = (List.range n).map mkKey →
    (addAll c as).2 = (List.range' n as.length).map mkKey ∧
    (addAll c as).1.annotations.map Prod.fst = (List.range (n + as.length)).map mkKey := by
  induction as with
  | nil =>
    intro n c h
    simpa [addAll] using h
  | cons a rest ih =>
    intro n c h
    have hstep := addAnn_fresh c a n h
    have hkeys2 : ({ c with annotations := c.annotations ++ [(mkKey n, [a])] } :
        AnnCollection).annotations.map Prod.fst = (List.range (n + 1)).map mkKey := by
      simp [h, List.range_succ]
    obtain ⟨ih1, ih2⟩ := ih (n + 1) _ hkeys2
    constructor
    · simp only [addAll, hstep, ih1, List.length_cons]
      rw [List.range'_succ]
      simp
    · simp only [addAll, hstep, ih2, List.length_cons]
      have harith : n + 1 + rest.length = n + (rest.length + 1) := by omega
      rw [harith]

/-- C3 counterexample: insert `exA` then `exB` (keys `annotation_0`,
`annotation_1`), remove `exA`, insert `exC`.  The key generated for `exC`
equals the key that the second insertion already received — so a
generated key is NOT unique — and the reassignment silently overwrites
the stored entry `exB` (only `exC` remains stored). -/
theorem key_reused_after_remove :
    (addAnn (removeAnn (addAnn (addAnn (createEmpty "f.edf" 20 250 "t0") exA).2 exB).2 exA) exC).1 =
      (addAnn (addAnn (createEmpty "f.edf" 20 250 "t0") exA).2 exB).1 ∧
    allStored (addAnn (removeAnn (addAnn (addAnn (createEmpty "f.edf" 20 250 "t0") exA).2 exB).2
      exA) exC).2 = [exC] := by
  have h01 : ((mkKey 0 : String) = mkKey 1) = False := by
    simp only [eq_iff_iff, iff_false]
    intro h
    exact absurd (mkKey_inj h) (by decide)
  have hBA : (exB = exA) = False := by
    simp only [eq_iff_iff, iff_false]
    decide
  constructor <;>
    simp [createEmpty, addAnn, dictSet, removeAnn, allStored, h01, hBA]

/-- C3, amended: in an insertion-only session starting from an empty
collection, the n-th insertion receives key `annotation_n` and all
generated keys are pairwise distinct. -/
theorem insert_only_keys_unique (edf : String) (ws sf : ℚ) (now : String) (as : List Ann) :
    (addAll (createEmpty edf ws sf now) as).2 = (List.range as.length).map mkKey ∧
    ((addAll (createEmpty edf ws sf now) as).2).Nodup := by
  have h := (addAll_keys as 0 (createEmpty edf ws sf now) (by simp [createEmpty])).1
  have hr : List.range' 0 as.length = List.range as.length :=
    (List.range_eq_range' as.length).symm
  rw [h, hr]
  exact ⟨rfl, (List.nodup_range as.length).map mkKey_inj⟩

/-- C1: an annotation is returned by the range query exactly when it is
stored and satisfies the strict half-open overlap test
`start < window_end` and `end > window_start`; in particular the stored
[10, 12] annotation is returned for window [11, 20] but excluded for the
touching windows [12, 20] and [0, 10]. -/
theorem overlap_query_iff :
    (∀ (c : AnnCollection) (a : Ann) (ws we : ℚ),
      a ∈ getAnnsInRange c ws we ↔
        a ∈ allStored c ∧ a.start_time < we ∧ a.end_time > ws) ∧
    exBoundary ∈ getAnnsInRange exColl 11 20 ∧
    exBoundary ∉ getAnnsInRange exColl 12 20 ∧
    exBoundary ∉ getAnnsInRange exColl 0 10 := by
  refine ⟨?_, ?_, ?_, ?_⟩
  · intro c a ws we
    simp only [getAnnsInRange, allStored, List.mem_flatMap, List.mem_filter,
      Bool.and_eq_true, decide_eq_true_eq, gt_iff_lt]
    tauto
  · norm_num [getAnnsInRange, exColl, exBoundary]
  · norm_num [getAnnsInRange, exColl, exBoundary]
  · norm_num [getAnnsInRange, exColl, exBoundary]

/-- C4: `has_selection` holds exactly when both endpoints are set and the
absolute span is at least 0.1 seconds; a 0.05-second selection
(5 to 5.05) is rejected and a 0.2-second selection (5 to 5.2) is
accepted. -/
theorem has_selection_iff :
    (∀ s : SelectionState, hasSelection s = true ↔
      ∃ a b : ℚ, s.start_time = some a ∧ s.end_time = some b ∧ (1:ℚ)/10 ≤ |b - a|) ∧
    hasSelection ⟨some 5, some (101/20), false, false⟩ = false ∧
    hasSelection ⟨some 5, some (26/5), false, false⟩ = true := by
  refine ⟨?_, ?_, ?_⟩
  · intro s
    cases hs : s.start_time <;> cases he : s.end_time <;>
      simp [hasSelection, hs, he, ge_iff_le]
  · simp only [hasSelection]
    norm_num [abs_of_nonneg]
  · simp only [hasSelection]
    norm_num [abs_of_nonneg]

/-- C10: when the annotations map is absent from the loaded document, the
load succeeds with an empty collection and substitutes the defaults
"unknown", 20.0, 250.0 and "" for whichever provenance fields are
missing. -/
theorem load_missing_defaults (d : AnnDoc) (h : d.annotations = none) :
    loadAnns d = some ⟨[], d.edfFile.getD "unknown", d.windowSize.getD 20,
      d.samplingFreq.getD 250, d.exportTimestamp.getD ""⟩ := by
  simp [loadAnns, h, parseAnnMap]

/-- Witness for C10: the document with every top-level field missing loads
as the empty collection with all defaults. -/
theorem load_missing_defaults_witness :
    (AnnDoc.mk none none none none none).annotations = none ∧
    loadAnns ⟨none, none, none, none, none⟩ = some ⟨[], "unknown", 20, 250, ""⟩ :=
  ⟨rfl, load_missing_defaults ⟨none, none, none, none, none⟩ rfl⟩

theorem roundHalfEven_intCast (n : ℤ) : roundHalfEven (n : ℚ) = n := by
  unfold roundHalfEven
  rw [Int.floor_intCast]
  norm_num

theorem roundQ3_intCast (n : ℤ) : roundQ3 (n : ℚ) = n := by
  have h : ((n : ℚ) * 1000) = ((n * 1000 : ℤ) : ℚ) := by push_cast; ring
  rw [roundQ3, h, roundHalfEven_intCast]
  push_cast
  field_simp

/-- C8 counterexample: `Annotation.create` happily constructs an annotation
with an empty label and an inverted time range (start 5, end 3), so
invalid annotations are representable through the factory. -/
theorem create_accepts_invalid :
    (createAnn "" 5 3 "t4" "gray").text = "" ∧
    (createAnn "" 5 3 "t4" "gray").end_time < (createAnn "" 5 3 "t4" "gray").start_time := by
  have h3 : roundQ3 3 = 3 := by
    have h := roundQ3_intCast 3
    norm_num at h
    exact h
  have h5 : roundQ3 5 = 5 := by
    have h := roundQ3_intCast 5
    norm_num at h
    exact h
  refine ⟨rfl, ?_⟩
  show roundQ3 3 < roundQ3 5
  rw [h3, h5]
  norm_num

/-- C8, amended: the edit operation (`EditAnnotationDialog.accept`) does
validate — every accepted edit result has a non-empty label and
`start <= end` — while the factory performs no validation (see the
counterexample). -/
theorem edit_rejects_invalid (label : String) (s e : ℚ) (r : String × ℚ × ℚ)
    (h : editAccept label s e = some r) : r.1 ≠ "" ∧ r.2.1 ≤ r.2.2 := by
  by_cases h1 : stripStr label = ""
  · simp [editAccept, h1] at h
  · by_cases h2 : s > e
    · simp [editAccept, h1, h2] at h
    · simp [editAccept, h1, h2] at h
      rw [← h]
      exact ⟨h1, le_of_not_lt h2⟩

/-- Witness for the amended C8 theorem at a concrete accepted edit. -/
theorem edit_rejects_invalid_witness :
    editAccept "Seizure" 1 2 = some ("Seizure", 1, 2) ∧
    ("Seizure" ≠ "" ∧ ((1:ℚ) ≤ 2)) := by
  have ha : editAccept "Seizure" 1 2 = some ("Seizure", 1, 2) := by
    have hs : stripStr "Seizure" = "Seizure" := by decide
    simp [editAccept, hs]
  exact ⟨ha, edit_rejects_invalid "Seizure" 1 2 ("Seizure", 1, 2) ha⟩

/-- C9: on a 30-second recording with time scale 10 the "next" operation
walks the window start 0 to 10 to 20 and a fourth "next" stays at 20, in
both dashboard variants; and every navigation operation keeps the window
start inside [0, total_duration]. -/
theorem nav_walk_and_clamped :
    (nextWindowStart 30 10 0 = 10 ∧ nextWindowStart 30 10 10 = 20 ∧
     nextWindowStart 30 10 20 = 20 ∧
     navStep 30 10 0 .next = 10 ∧ navStep 30 10 10 .next = 20 ∧
     navStep 30 10 20 .next = 20) ∧
    (∀ total ts s : ℚ, 0 < ts → 0 ≤ s → s ≤ total →
      (0 ≤ nextWindowStart total ts s ∧ nextWindowStart total ts s ≤ total) ∧
      (0 ≤ prevWindowStart ts s ∧ prevWindowStart ts s ≤ total) ∧
      (0 ≤ jumpForwardStart total ts s ∧ jumpForwardStart total ts s ≤ total) ∧
      (0 ≤ jumpBackwardStart ts s ∧ jumpBackwardStart ts s ≤ total) ∧
      (∀ a : NavAct, 0 ≤ navStep total ts s a ∧ navStep total ts s a ≤ total)) := by
  constructor
  · refine ⟨?_, ?_, ?_, ?_, ?_, ?_⟩ <;>
      norm_num [nextWindowStart, navStep, min_def, max_def]
  · intro total ts s hts hs0 hstot
    refine ⟨⟨?_, ?_⟩, ⟨?_, ?_⟩, ⟨?_, ?_⟩, ⟨?_, ?_⟩, ?_⟩
    · simp only [nextWindowStart]
      split <;> linarith
    · simp only [nextWindowStart]
      split <;> linarith
    · simp only [prevWindowStart]
      split
      · exact le_max_left 0 (s - ts)
      · linarith
    · simp only [prevWindowStart]
      split
      · exact max_le (by linarith) (by linarith)
      · linarith
    · simp only [jumpForwardStart]
      split
      · linarith
      · exact le_max_left 0 (total - ts)
    · simp only [jumpForwardStart]
      split
      · linarith
      · exact max_le (by linarith) (by linarith)
    · simp only [jumpBackwardStart]
      exact le_max_left 0 (s - ts * 5)
    · simp only [jumpBackwardStart]
      exact max_le (by linarith) (by linarith)
    · intro a
      constructor
      · exact le_max_left 0 _
      · refine max_le (by linarith) ?_
        exact le_trans (min_le_right _ _) (by linarith)

/-- Witness for C9 discharging the bound hypotheses at a concrete state. -/
theorem nav_walk_and_clamped_witness :
    (0:ℚ) < 10 ∧ (0:ℚ) ≤ 5 ∧ (5:ℚ) ≤ 30 ∧
    ((0 ≤ nextWindowStart 30 10 5 ∧ nextWindowStart 30 10 5 ≤ 30) ∧
     (0 ≤ prevWindowStart 10 5 ∧ prevWindowStart 10 5 ≤ 30) ∧
     (0 ≤ jumpForwardStart 30 10 5 ∧ jumpForwardStart 30 10 5 ≤ 30) ∧
     (0 ≤ jumpBackwardStart 10 5 ∧ jumpBackwardStart 10 5 ≤ 30) ∧
     (∀ a : NavAct, 0 ≤ navStep 30 10 5 a ∧ navStep 30 10 5 a ≤ 30)) :=
  ⟨by norm_num, by norm_num, by norm_num,
   nav_walk_and_clamped.2 30 10 5 (by norm_num) (by norm_num) (by norm_num)⟩

theorem insertionSort_getD_zero (l : List ℚ) (h : ∀ x ∈ l, x = 0) (n : Nat) :
    (l.insertionSort (· ≤ ·)).getD n 0 = 0 := by
  have hmem := fun x hx => h x ((List.perm_insertionSort (· ≤ ·) l).mem_iff.mp hx)
  rcases Nat.lt_or_ge n (List.insertionSort (· ≤ ·) l).length with hlt | hge
  · rw [List.getD_eq_getElem?_getD, List.getElem?_eq_getElem hlt]
    simp [hmem _ (List.getElem_mem hlt)]
  · rw [List.getD_eq_default _ _ hge]

theorem medianQ_zero (l : List ℚ) (h : ∀ x ∈ l, x = 0) : medianQ l = 0 := by
  simp only [medianQ]
  split
  · exact insertionSort_getD_zero l h _
  · rw [insertionSort_getD_zero l h, insertionSort_getD_zero l h]
    norm_num

/-- C6 counterexample: for flat (zero-variance) window data every
per-channel standard deviation is 0, their median is 0, and the spacing
floor produces the SAME spacing 1e-5 at amplitude scale 1.0 and 2.0 — so
raising the amplitude scale from 1.0 to 2.0 does not strictly decrease
the computed spacing. -/
theorem spacing_not_strict_on_flat :
    medianQ [0, 0] = 0 ∧
    scaledChannelSpacing (medianQ [0, 0]) 1 = 1/100000 ∧
    scaledChannelSpacing (medianQ [0, 0]) 2 = 1/100000 := by
  have hm : medianQ [0, 0] = 0 := by
    apply medianQ_zero
    intro x hx
    simpa using hx
  refine ⟨hm, ?_, ?_⟩ <;> rw [hm] <;> norm_num [scaledChannelSpacing]

/-- C6, amended: whenever the base spacing (median channel standard
deviation times 6) is at least 2e-6, raising `amplitude_scale` from 1.0 to
2.0 strictly halves the spacing (spacing times amplitude scale constant);
the computed spacing is always strictly positive; but for flat window
data (all channel standard deviations zero) the 1e-5 floor applies at
every amplitude scale, so the spacing stays constant instead of strictly
decreasing. -/
theorem spacing_inverse_amended :
    (∀ medianStd : ℚ, 2/1000000 ≤ medianStd * 6 →
      scaledChannelSpacing medianStd 2 < scaledChannelSpacing medianStd 1 ∧
      scaledChannelSpacing medianStd 2 * 2 = scaledChannelSpacing medianStd 1) ∧
    (∀ medianStd amp : ℚ, 0 < scaledChannelSpacing medianStd amp) ∧
    (∀ stds : List ℚ, (∀ x ∈ stds, x = 0) → ∀ amp : ℚ,
      scaledChannelSpacing (medianQ stds) amp = 1/100000) := by
  refine ⟨?_, ?_, ?_⟩
  · intro m hm
    have h1 : scaledChannelSpacing m 1 = m * 6 := by
      simp only [scaledChannelSpacing, div_one]
      rw [if_neg (not_lt.mpr (by linarith))]
    have h2 : scaledChannelSpacing m 2 = m * 6 / 2 := by
      simp only [scaledChannelSpacing]
      rw [if_neg (not_lt.mpr (by linarith))]
    rw [h1, h2]
    constructor
    · linarith
    · ring
  · intro m amp
    simp only [scaledChannelSpacing]
    by_cases h : m * 6 / amp < 1/1000000
    · rw [if_pos h]
      norm_num
    · rw [if_neg h]
      have := not_lt.mp h
      linarith
  · intro stds h amp
    rw [medianQ_zero stds h]
    norm_num [scaledChannelSpacing]

/-- Witness for the amended C6 theorem: the halving part at median std 1
and the flat part at the all-zero std list. -/
theorem spacing_inverse_amended_witness :
    ((2:ℚ)/1000000 ≤ 1 * 6 ∧
     scaledChannelSpacing 1 2 < scaledChannelSpacing 1 1 ∧
     scaledChannelSpacing 1 2 * 2 = scaledChannelSpacing 1 1) ∧
    ((∀ x ∈ ([0, 0] : List ℚ), x = 0) ∧
     scaledChannelSpacing (medianQ [0, 0]) 1 = 1/100000) :=
  ⟨⟨by norm_num, spacing_inverse_amended.1 1 (by norm_num)⟩,
   ⟨by intro x hx; simpa using hx,
    spacing_inverse_amended.2.2 [0, 0] (by intro x hx; simpa using hx) 1⟩⟩

/-- C5: when a drag in annotation mode is released inside the axes with a
span of at least 0.1 seconds, the committed selection is normalized to
`start = min`, `end = max` of the pressed and released coordinates, and
the manager proceeds to prompt for a label — so the committed range is
independent of the drag direction. -/
theorem release_normalizes (s : SelectionState) (e : MouseEvent) (a x : ℚ)
    (hmp : s.mouse_pressed = true) (hsel : s.is_selecting = true)
    (hst : s.start_time = some a) (hin : e.inaxes = true) (hx : e.xdata = some x)
    (hdur : (1:ℚ)/10 ≤ |x - a|) :
    handleMouseRelease s e true =
      some (⟨some (min a x), some (max a x), true, false⟩, .prompt) := by
  simp only [handleMouseRelease, hmp, hsel, hst, hin, hx]
  norm_num
  by_cases hax : a > x
  · have habs : (1:ℚ)/10 ≤ |a - x| := by
      rw [abs_sub_comm]
      exact hdur
    simp [hax, hasSelection, ge_iff_le, habs,
      min_eq_right (le_of_lt hax), max_eq_left (le_of_lt hax)]
    linarith [habs]
  · have hle : a ≤ x := le_of_not_lt hax
    simp [hax, hasSelection, ge_iff_le, hdur,
      min_eq_left hle, max_eq_right hle]
    linarith [hdur]

/-- Witness for C5: press at x = 8, release at x = 3; the committed
selection is start 3, end 8 and the manager prompts for a label. -/
theorem release_normalizes_witness :
    handleMouseRelease (handleMousePress ⟨none, none, false, false⟩ ⟨true, some 8, 1⟩ true)
        ⟨true, some 3, 1⟩ true =
      some (⟨some 3, some 8, true, false⟩, .prompt) := by
  have hp : handleMousePress ⟨none, none, false, false⟩ ⟨true, some 8, 1⟩ true =
      ⟨some 8, some 8, true, true⟩ := by
    simp [handleMousePress]
  rw [hp]
  have hd : (1:ℚ)/10 ≤ |(3:ℚ) - 8| := by
    rw [show (3:ℚ) - 8 = -5 by norm_num, abs_neg, abs_of_nonneg (by norm_num : (0:ℚ) ≤ 5)]
    norm_num
  have h := release_normalizes ⟨some 8, some 8, true, true⟩ ⟨true, some 3, 1⟩ 8 3
    rfl rfl rfl rfl rfl hd
  rw [h]
  norm_num [min_def, max_def]

theorem getD_append_lt (l l' : List α) (n : Nat) (d : α) (h : n < l.length) :
    (l ++ l').getD n d = l.getD n d := by
  simp [List.getD_eq_getElem?_getD, List.getElem?_append_left h]

theorem getD_set_ne (l : List α) (i j : Nat) (x d : α) (h : i ≠ j) :
    (l.set j x).getD i d = l.getD i d := by
  simp [List.getD_eq_getElem?_getD, List.getElem?_set_ne (Ne.symm h)]

theorem getD_set_self (l : List α) (j : Nat) (x d : α) (h : j < l.length) :
    (l.set j x).getD j d = x := by
  rw [List.getD_eq_getElem?_getD, List.getElem?_set_eq_of_lt x h]
  rfl

theorem getD_append_length (l : List α) (m d : α) :
    (l ++ [m]).getD l.length d = m := by
  rw [List.getD_eq_getElem?_getD, List.getElem?_concat_length]
  rfl

theorem applyFiltersArray_heap_getD (h : Heap) (v : NView) (lp hp : Option ℚ)
    (f : Mat → Mat) (i : Nat) (hi : i < h.length) :
    ((applyFiltersArray h v lp hp f).1).getD i [] = h.getD i [] := by
  simp only [applyFiltersArray]
  by_cases hc : (lp.isNone && hp.isNone) = true
  · rw [if_pos hc]
  · rw [if_neg hc]
    rw [getD_set_ne _ _ _ _ _ (by omega : i ≠ h.length)]
    exact getD_append_lt _ _ _ _ hi

theorem readView_none (h : Heap) (b : Nat) : readView h ⟨b, none⟩ = h.getD b [] := by
  simp [readView]

theorem applyFiltersArray_result (h : Heap) (v : NView) (lp hp : Option ℚ)
    (f : Mat → Mat) (hc : ¬ (lp.isNone && hp.isNone) = true) :
    readView (applyFiltersArray h v lp hp f).1 (applyFiltersArray h v lp hp f).2 =
      f (readView h v) := by
  simp only [applyFiltersArray]
  rw [if_neg hc]
  rw [getD_append_length]
  rw [readView_none]
  exact getD_set_self _ _ _ _ (by simp)

/-- C7: rendering a window with a lowpass or highpass filter enabled
leaves the recording's stored sample buffer untouched — the filter
mutates only a freshly copied buffer — and the matrix handed to the
renderer is exactly the external filter applied to the window slice of
the original data. -/
theorem filter_locality (h : Heap) (recBuf : Nat) (sel : List Nat)
    (ss spw : Nat) (lp hp : Option ℚ) (f : Mat → Mat) (hrb : recBuf < h.length) :
    ((plotWindowData h recBuf sel ss spw lp hp f).1).getD recBuf [] = h.getD recBuf [] ∧
    ((lp.isSome ∨ hp.isSome) →
      (plotWindowData h recBuf sel ss spw lp hp f).2 =
        f (windowSliceSpec h recBuf sel ss spw)) := by
  constructor
  · by_cases hsel : sel.isEmpty = true
    · simp only [plotWindowData, getSelectedChannelData, hsel, if_true]
      by_cases hfil : (lp.isSome || hp.isSome) = true
      · rw [if_pos hfil]
        exact applyFiltersArray_heap_getD _ _ _ _ _ _ hrb
      · rw [if_neg hfil]
    · simp only [plotWindowData, getSelectedChannelData, hsel, if_false]
      by_cases hfil : (lp.isSome || hp.isSome) = true
      · rw [if_pos hfil]
        refine (applyFiltersArray_heap_getD _ _ _ _ _ _ ?_).trans
          (getD_append_lt _ _ _ _ hrb)
        simp
        omega
      · rw [if_neg hfil]
        exact getD_append_lt _ _ _ _ hrb
  · intro hor
    have hc : ¬ (lp.isNone && hp.isNone) = true := by
      rcases hor with h1 | h1 <;> cases lp <;> cases hp <;> simp_all
    have hfil : (lp.isSome || hp.isSome) = true := by
      rcases hor with h1 | h1 <;> cases lp <;> cases hp <;> simp_all
    by_cases hsel : sel.isEmpty = true
    · simp only [plotWindowData, getSelectedChannelData, hsel, if_true]
      rw [if_pos hfil]
      rw [applyFiltersArray_result _ _ _ _ _ hc]
      simp [readView, windowSliceSpec, hsel]
    · simp only [plotWindowData, getSelectedChannelData, hsel, if_false]
      rw [if_pos hfil]
      rw [applyFiltersArray_result _ _ _ _ _ hc]
      simp [readView, windowSliceSpec, hsel, getD_append_length]

/-- Witness for C7 at a concrete one-buffer heap, with the identity as the
external filter. -/
theorem filter_locality_witness :
    0 < ([[[1, 2], [3, 4]]] : Heap).length ∧
    ((plotWindowData [[[1, 2], [3, 4]]] 0 [] 0 2 (some 30) none (fun m => m)).1).getD 0 [] =
      ([[[1, 2], [3, 4]]] : Heap).getD 0 [] ∧
    ((some (30:ℚ)).isSome ∨ (none : Option ℚ).isSome) ∧
    (plotWindowData [[[1, 2], [3, 4]]] 0 [] 0 2 (some 30) none (fun m => m)).2 =
      (fun m => m) (windowSliceSpec [[[1, 2], [3, 4]]] 0 [] 0 2) := by
  have h := filter_locality [[[1, 2], [3, 4]]] 0 [] 0 2 (some 30) none (fun m => m)
    (by norm_num)
  exact ⟨by norm_num, h.1, Or.inl rfl, h.2 (Or.inl rfl)⟩

theorem parseEntry_annToDict (a : Ann) : parseEntry (annToDict a) = some a := rfl

theorem parseEntryList_map (l : List Ann) : parseEntryList (l.map annToDict) = some l := by
  induction l with
  | nil => rfl
  | cons a t ih => simp [parseEntryList, parseEntry_annToDict, ih]

theorem parseAnnMap_map (l : List (String × List Ann)) :
    parseAnnMap (l.map (fun kv => (kv.1, kv.2.map annToDict))) = some l := by
  induction l with
  | nil => rfl
  | cons kv t ih => simp [parseAnnMap, parseEntryList_map, ih]

/-- C2 (code bug): the document round trip through `to_dict` and
`load_annotations` reproduces every field the data model has — text,
start, end, timestamp, duration, color — but channel scoping is lost:
serialized entries never carry a channels key, a document entry with
explicit channels (`exEntryChan`) loads into an annotation whose
re-serialization has channels absent, and every serialized entry fails
the repository's own `validate_annotation_data`, which demands a
channels key. -/
theorem roundtrip_drops_channels :
    (∀ c : AnnCollection, loadAnns (collectionToDict c) = some c) ∧
    parseEntry exEntryChan = some ⟨"Spike", 2, 5, "t", 3, "blue"⟩ ∧
    (annToDict ⟨"Spike", 2, 5, "t", 3, "blue"⟩).channels = none ∧
    exEntryChan.channels = some ["C3"] ∧
    validateAnnData (annToDict ⟨"Spike", 2, 5, "t", 3, "blue"⟩) = false := by
  refine ⟨?_, rfl, rfl, rfl, rfl⟩
  intro c
  simp [loadAnns, collectionToDict, parseAnnMap_map]

/-- Witness for C1: the overlap equivalence instantiated at the stored
boundary annotation and the window [11, 20]. -/
theorem overlap_query_iff_witness :
    exBoundary ∈ getAnnsInRange exColl 11 20 ↔
      exBoundary ∈ allStored exColl ∧
        exBoundary.start_time < 20 ∧ exBoundary.end_time > 11 :=
  overlap_query_iff.1 exColl exBoundary 11 20

/-- Witness for C4: the characterization instantiated at a concrete
selection state. -/
theorem has_selection_iff_witness :
    hasSelection ⟨some 0, some 1, true, false⟩ = true ↔
      ∃ a b : ℚ, (some (0:ℚ)) = some a ∧ (some (1:ℚ)) = some b ∧ (1:ℚ)/10 ≤ |b - a| :=
  has_selection_iff.1 ⟨some 0, some 1, true, false⟩

/-- Witness for the amended C3 theorem at a concrete two-insertion run. -/
theorem insert_only_keys_unique_witness :
    (addAll (createEmpty "f.edf" 20 250 "t0") [exA, exB]).2 =
      (List.range ([exA, exB].length)).map mkKey ∧
    ((addAll (createEmpty "f.edf" 20 250 "t0") [exA, exB]).2).Nodup :=
  insert_only_keys_unique "f.edf" 20 250 "t0" [exA, exB]

/-- Witness for C2: the exact round trip instantiated at the concrete
collection `exColl`. -/
theorem roundtrip_drops_channels_witness :
    loadAnns (collectionToDict exColl) = some exColl :=
  roundtrip_drops_channels.1 exColl
